import Mathlib

/-!
Shallow embedding of `src/classifier.h` (the Centrifuge-style `Classifier`
class built on top of an external hierarchical aligner).

Conventions of the embedding:

* `uint32_t` fields (`id`, `count`, `weightedCount`, `timeStamp` of
  `SpeciesCount` / `GenusCount`) are modelled as `Nat` with an explicit
  `% 2^32` at every operation that can leave the 32-bit range
  (`count += 1`, `weightedCount += addWeight`, the `uint32_t` cast of the
  weight formula, and the narrowing assignment `timeStamp = hi` where `hi`
  is a `size_t`).
* `size_t` arithmetic (the early-termination score comparison at line 183
  of the source, the weight product at line 158) is modelled as `Nat` with
  an explicit `% 2^64`.
* `index_t` quantities (read offsets, hit lengths) are modelled as plain
  `Nat`; every theorem that depends on an `index_t` subtraction carries the
  hypothesis that makes unsigned and natural subtraction agree.
* External collaborators (the BWT search primitive, the suffix-array walk,
  reference-name decoding) are modelled by their observable data: a partial
  hit carries the packed 64-bit taxonomy ids that the walk plus
  `extractID` would produce for each suffix-array position of its range.
-/

namespace Classifier

/-- `2^32`, the modulus of `uint32_t` arithmetic. -/
def U32 : Nat := 2 ^ 32

/-- `2^64`, the modulus of `size_t` arithmetic. -/
def U64 : Nat := 2 ^ 64

/-- `struct SpeciesCount` (src/classifier.h lines 26-35). -/
structure SpeciesCount where
  id : Nat
  count : Nat
  weightedCount : Nat
  timeStamp : Nat
deriving DecidableEq

/-- `struct GenusCount` (src/classifier.h lines 37-48). -/
structure GenusCount where
  id : Nat
  count : Nat
  weightedCount : Nat
  timeStamp : Nat
  speciesMap : List SpeciesCount
deriving DecidableEq

/-- `GenusCount` produced by `reset()` followed by no assignments; used as
the placeholder for the (never taken) out-of-bounds indexing case. -/
def emptyGenus : GenusCount := ⟨0, 0, 0, 0, []⟩

/-- `Classifier::addHitToGenusMap` (src/classifier.h lines 418-443).
Linear scan for `genusID`; on the first match, credit the entry unless its
`timeStamp` already equals the round index `hi`; if no entry matches,
append a fresh entry.  Returns the updated map together with the index
`genusIdx` of the matching / appended entry.  `count` and `weightedCount`
are `uint32_t` (wrap mod `2^32`); `timeStamp = hi` narrows the `size_t`
round index to 32 bits, while the comparison `timeStamp != hi` is made at
`size_t` width (the stored 32-bit value zero-extended against the raw
`hi`). -/
def addHitToGenusMap : List GenusCount → Nat → Nat → Nat → List GenusCount × Nat
  | [], genusID, hi, addWeight =>
      ([{ id := genusID, count := 1, weightedCount := addWeight,
          timeStamp := hi % U32, speciesMap := [] }], 0)
  | g :: gs, genusID, hi, addWeight =>
      if g.id = genusID then
        (if g.timeStamp = hi then g :: gs
         else { g with count := (g.count + 1) % U32,
                       weightedCount := (g.weightedCount + addWeight) % U32,
                       timeStamp := hi % U32 } :: gs, 0)
      else
        let r := addHitToGenusMap gs genusID hi addWeight
        (g :: r.1, r.2 + 1)

/-- The scan-and-update of `Classifier::addHitToSpeciesMap`
(src/classifier.h lines 451-475) on the species list of one genus entry.
`gWeighted` is the enclosing genus entry's current `weightedCount` (read
at line 458 when an existing species entry is credited for the first time
in round `hi`).  Returns the updated list and `newScore`. -/
def addHitToSpeciesList (gWeighted : Nat) :
    List SpeciesCount → Nat → Nat → Nat → List SpeciesCount × Nat
  | [], speciesID, hi, addWeight =>
      ([{ id := speciesID, count := 1, weightedCount := addWeight,
          timeStamp := hi % U32 }], addWeight)
  | s :: ss, speciesID, hi, addWeight =>
      if s.id = speciesID then
        (if s.timeStamp = hi then (s :: ss, 0)
         else ({ s with count := (s.count + 1) % U32,
                        weightedCount := (s.weightedCount + addWeight) % U32,
                        timeStamp := hi % U32 } :: ss, gWeighted))
      else
        let r := addHitToSpeciesList gWeighted ss speciesID hi addWeight
        (s :: r.1, r.2)

/-- `Classifier::addHitToSpeciesMap` (src/classifier.h lines 446-477):
update the species map of `genusCount` in place and return the new
`newScore`. -/
def addHitToSpeciesMap (genusCount : GenusCount) (speciesID hi addWeight : Nat) :
    GenusCount × Nat :=
  let r := addHitToSpeciesList genusCount.weightedCount genusCount.speciesMap
      speciesID hi addWeight
  ({ genusCount with speciesMap := r.1 }, r.2)

/-- The scoring function at src/classifier.h line 158:
`addWeight = (uint32_t)((hit_len - 15) * (hit_len - 15))`, where `hit_len`
is a `size_t`; both the subtraction and the product are `size_t`
operations (mod `2^64`) and the result is narrowed to `uint32_t`. -/
def addWeight (hit_len : Nat) : Nat :=
  (((hit_len + (U64 - 15)) % U64) * ((hit_len + (U64 - 15)) % U64)) % U64 % U32

/-- The offset adjustment after one step of
`Classifier::searchForwardAndReverse` (src/classifier.h lines 337-344):
given the strand's scan offset `cur` as left by the search primitive, the
most recent partial hit's length `L`, the configured `minHitLen` `m` and
the step `increment` (10 at every call site, line 95), compute the new
scan offset.  When `L <= increment` the source performs no `setOffset`
call at all and the offset stays `cur`.  `index_t` is an unsigned template
parameter; the retreat `cur - increment` is modelled by truncated natural
subtraction, and every theorem using it assumes `increment <= cur`. -/
def searchStepAdjust (cur L m increment : Nat) : Nat :=
  if increment < L then (if L < m then cur - increment else cur + 1) else cur

/-- The per-strand accumulation of `Classifier::getForwardOrReverseHit`
(src/classifier.h lines 365-370): fold over the strand's partial-hit
lengths, skipping those below `minHitLen`, summing the rest into
`totalHitLength` and counting them into `numHits`. -/
def totalAndNum (lens : List Nat) (m : Nat) : Nat × Nat :=
  lens.foldl (fun acc l => if l < m then acc else (acc.1 + l, acc.2 + 1)) (0, 0)

/-- `avgHitLength[fwi]` of `Classifier::getForwardOrReverseHit`
(src/classifier.h lines 372-374): integer average of the qualifying hit
lengths, 0 when there are none. -/
def avgHitLength (lens : List Nat) (m : Nat) : Nat :=
  let p := totalAndNum lens m
  if 0 < p.2 then p.1 / p.2 else 0

/-- The strand choice of `Classifier::getForwardOrReverseHit`
(src/classifier.h line 378): `fwi = (avgHitLength[0] > avgHitLength[1]) ?
0 : 1`, where index 0 is the forward strand and 1 the reverse strand. -/
def getForwardOrReverseHit (fwLens rcLens : List Nat) (m : Nat) : Nat :=
  if avgHitLength fwLens m > avgHitLength rcLens m then 0 else 1

/-- Spec-side comparison definition (written from the spec's words, to be
compared with `avgHitLength`): sum the lengths of partial hits with length
at least `minHitLen`, count them, average = sum / count, 0 if none. -/
def specAverage (lens : List Nat) (m : Nat) : Nat :=
  let q := lens.filter (fun l => decide (m ≤ l))
  if q.length = 0 then 0 else q.sum / q.length

/-- One `size_t` subtraction `a - b` (mod `2^64`), for operand values
already reduced below `2^64`.  (`(a + (2^64 - b % 2^64)) % 2^64` equals
the machine result for all `a`, `b`.) -/
def sizeSub (a b : Nat) : Nat := (a + (U64 - b % U64)) % U64

/-- The early-termination test at src/classifier.h line 183:
`bestScore > secondBestScore + (t - usedPortion - 15) * (t - usedPortion - 15)`
where `t = totalHitLength[hit._fw == 0]` is the selected strand's total
qualifying hit length and all arithmetic is `size_t` (mod `2^64`). -/
def earlyTermCond (bestScore secondBestScore t usedPortion : Nat) : Bool :=
  let d := sizeSub (sizeSub t usedPortion) 15
  decide ((secondBestScore + (d * d) % U64) % U64 < bestScore % U64)

/-! ### The classification driver `Classifier::go` -/

/-- One partial hit as the driver consumes it: its match length
(`BWTHit::len()`), and, for each position of its suffix-array range
`[top, bot)`, the packed 64-bit taxonomy id (`extractID(refName)` of the
reference that the external walk resolves that position to; high 32 bits
species id, low 32 bits genus id).  The length of `coordIds` plays
`bot - top`. -/
structure BWTHit where
  len : Nat
  coordIds : List Nat
deriving DecidableEq

/-- The state threaded through the whole call: the genus map `_genusMap`
(cleared at line 93), the `size_t` trackers `bestScore` / `secondBestScore`
(line 96), and `walk`, the number of invocations of the external walk
primitive (`advanceElement`, one per iteration of the loop at
src/classifier.h lines 281-295) across the call. -/
structure GoState where
  genusMap : List GenusCount
  bestScore : Nat
  secondBestScore : Nat
  walk : Nat
deriving DecidableEq

/-- The per-mate locals of the loop body: `usedPortion` and
`genomeHitCnt` (src/classifier.h lines 125-126, reinitialised for every
mate). -/
structure MateState where
  gs : GoState
  usedPortion : Nat
  genomeHitCnt : Nat
deriving DecidableEq

/-- `this->_genomeHits.size()` at any point inside `Classifier::go`: the
list is cleared at src/classifier.h line 116 and nothing in
`Classifier::go` or its callees ever appends to it (accepted coordinates
are counted in the local `genomeHitCnt` instead), so its size is 0 at
every `getCoords` call. -/
def genomeHitsSize : Nat := 0

/-- The coordinate resolution of `Classifier::getCoords` /
`Classifier::getGenomeIdx` (src/classifier.h lines 382-414 and 254-298)
for one partial hit: `maxelt = maxGenomeHitSize - _genomeHits.size()`,
`nelt = min(bot - top, maxelt)`, and the walk loop resolves exactly the
first `nelt` positions of the range, one coordinate each. -/
def getGenomeIdx (h : BWTHit) (maxGenomeHitSize : Nat) : List Nat :=
  h.coordIds.take (min h.coordIds.length (maxGenomeHitSize - genomeHitsSize))

/-- The body of the inner coordinate loop (src/classifier.h lines
147-175) for one accepted coordinate with packed id `pid`:
`speciesID = (uint32_t)(id >> 32)`, `genusID = (uint32_t)(id &
0xffffffff)`, credit the genus map then the species map, and update the
running `bestScore` / `secondBestScore` from the returned score. -/
def creditCoord (gs : GoState) (pid hi w : Nat) : GoState :=
  let genusID := pid % U32
  let speciesID := pid / 2 ^ 32 % U32
  let r := addHitToGenusMap gs.genusMap genusID hi w
  let s := addHitToSpeciesMap (r.1.getD r.2 emptyGenus) speciesID hi w
  { genusMap := r.1.set r.2 s.1,
    bestScore := if s.2 > gs.bestScore then s.2 else gs.bestScore,
    secondBestScore :=
      if s.2 > gs.bestScore then gs.bestScore
      else if s.2 > gs.secondBestScore then s.2 else gs.secondBestScore,
    walk := gs.walk }

/-- The inner coordinate loop folded over the accepted coordinates of one
partial hit (all share the round index `hi` and the weight `w`). -/
def creditLoop (hi w : Nat) (pids : List Nat) (gs : GoState) : GoState :=
  pids.foldl (fun g pid => creditCoord g pid hi w) gs

/-- One iteration of the partial-hit loop of `Classifier::go`
(src/classifier.h lines 127-186) for the hit `h` at round index `hi`.
Returns the new state and `true` when the loop `break`s after this
iteration (budget exhausted, line 178, or the last-mate early-termination
test, line 183).  `shuf` is the permutation that
`coords.shufflePortion(0, coords.size(), rnd)` (line 143) applies to the
resolved list when the hit's coordinates would overrun the budget; the
random source is external, so theorems quantify over it. -/
def stepHit (khits m : Nat) (shuf : List Nat → List Nat) (lastRound : Bool)
    (t : Nat) (h : BWTHit) (hi : Nat) (st : MateState) : MateState × Bool :=
  if h.len < m then (st, false) else
  let resolved := getGenomeIdx h khits
  let st1 : MateState :=
    { st with gs := { st.gs with walk := st.gs.walk + resolved.length } }
  if resolved.isEmpty then (st1, false) else
  let used := st1.usedPortion + h.len
  let cs := if khits < st1.genomeHitCnt + resolved.length then shuf resolved
            else resolved
  let accepted := cs.take (khits - st1.genomeHitCnt)
  let gs2 := creditLoop hi (addWeight h.len) accepted st1.gs
  let st2 : MateState := ⟨gs2, used, st1.genomeHitCnt + accepted.length⟩
  if khits ≤ st2.genomeHitCnt then (st2, true)
  else if lastRound && earlyTermCond gs2.bestScore gs2.secondBestScore t used then
    (st2, true)
  else (st2, false)

/-- The partial-hit loop of `Classifier::go` (src/classifier.h lines
127-186), driven over the selected strand's hit list from round index
`hi`. -/
def runHits (khits m : Nat) (shuf : Nat → List Nat → List Nat)
    (lastRound : Bool) (t : Nat) : List BWTHit → Nat → MateState → MateState
  | [], _, st => st
  | h :: rest, hi, st =>
      let p := stepHit khits m (shuf hi) lastRound t h hi st
      if p.2 then p.1 else runHits khits m shuf lastRound t rest (hi + 1) p.1

/-- What one mate contributes to the call: `t` is
`totalHitLength[hit._fw == 0]`, the selected strand's total qualifying
hit length as computed by `getForwardOrReverseHit`, and `hits` is the
selected strand's partial-hit list after the sort at src/classifier.h
line 119 (theorems quantify over the list, hence over every sort
order). -/
structure MateIn where
  t : Nat
  hits : List BWTHit
deriving DecidableEq

/-- The mate loop of `Classifier::go` (src/classifier.h lines 102-190):
`usedPortion` and `genomeHitCnt` restart at 0 for each mate,
`last_round = rdi == (paired ? 1 : 0)` marks the final mate. -/
def runMates (khits m : Nat) (shuf : Nat → Nat → List Nat → List Nat)
    (total : Nat) : List MateIn → Nat → GoState → GoState
  | [], _, gs => gs
  | mt :: rest, rdi, gs =>
      let lastRound := decide (rdi + 1 = total)
      let st := runHits khits m (shuf rdi) lastRound mt.t mt.hits 0 ⟨gs, 0, 0⟩
      runMates khits m shuf total rest (rdi + 1) st.gs

/-- `Classifier::go` up to (and excluding) result emission
(src/classifier.h lines 92-190): clear the genus map, zero the score
trackers, and run the mate loop (`mates` has one element for unpaired
input, two for paired input). -/
def classifierGo (khits m : Nat) (shuf : Nat → Nat → List Nat → List Nat)
    (mates : List MateIn) : GoState :=
  runMates khits m shuf mates.length mates 0 ⟨[], 0, 0, 0⟩

/-- One call of `sink.report(0, &rs)`: the mate index passed (literally 0,
src/classifier.h line 208), the species id (primary id of `rs.init`), the
genus id (context id), and the reported score
`genusCount.weightedCount + speciesWeightedCount` (a `uint32_t` sum,
line 203). -/
abbrev Report := Nat × Nat × Nat × Nat

/-- The result-emission loop of `Classifier::go` (src/classifier.h lines
193-210): for every genus entry, one report per species entry under
it. -/
def emitResults : List GenusCount → List Report
  | [] => []
  | g :: gs =>
      g.speciesMap.map
        (fun s => (0, s.id, g.id, (g.weightedCount + s.weightedCount) % U32))
        ++ emitResults gs

/-- The full list of reports of one `Classifier::go` call. -/
def classifierReports (khits m : Nat) (shuf : Nat → Nat → List Nat → List Nat)
    (mates : List MateIn) : List Report :=
  emitResults (classifierGo khits m shuf mates).genusMap

/-! ## Aggregator lemmas -/

/-- The score returned by the species-list scan, characterised by the
first entry whose id matches. -/
theorem addHitToSpeciesList_score (gW : Nat) (l : List SpeciesCount) (sid hi w : Nat) :
    (addHitToSpeciesList gW l sid hi w).2 =
      match l.find? (fun s => decide (s.id = sid)) with
      | none => w
      | some s => if s.timeStamp = hi then 0 else gW := by
  induction l with
  | nil => rfl
  | cons s ss ih =>
      by_cases hid : s.id = sid
      · by_cases hts : s.timeStamp = hi <;>
          simp [addHitToSpeciesList, hid, hts, List.find?]
      · simp [addHitToSpeciesList, hid, List.find?, ih]

/-- After crediting `gid` in round `hi < 2^32`, a second credit of the
same `gid` in the same round leaves the genus map unchanged. -/
theorem addHitToGenusMap_idem (gid hi : Nat) (hhi : hi < U32) :
    ∀ (mp : List GenusCount) (w w' : Nat),
      (addHitToGenusMap (addHitToGenusMap mp gid hi w).1 gid hi w').1
        = (addHitToGenusMap mp gid hi w).1 := by
  intro mp
  induction mp with
  | nil =>
      intro w w'
      simp [addHitToGenusMap, Nat.mod_eq_of_lt hhi]
  | cons g gs ih =>
      intro w w'
      by_cases hid : g.id = gid
      · by_cases hts : g.timeStamp = hi <;>
          simp [addHitToGenusMap, hid, hts, Nat.mod_eq_of_lt hhi]
      · simp [addHitToGenusMap, hid, ih]

/-- Species-list analogue of `addHitToGenusMap_idem`; the enclosing genus
weighted count and the weight may differ between the two credits. -/
theorem addHitToSpeciesList_idem (sid hi : Nat) (hhi : hi < U32) :
    ∀ (l : List SpeciesCount) (gW gW' w w' : Nat),
      (addHitToSpeciesList gW' (addHitToSpeciesList gW l sid hi w).1 sid hi w').1
        = (addHitToSpeciesList gW l sid hi w).1 := by
  intro l
  induction l with
  | nil =>
      intro gW gW' w w'
      simp [addHitToSpeciesList, Nat.mod_eq_of_lt hhi]
  | cons s ss ih =>
      intro gW gW' w w'
      by_cases hid : s.id = sid
      · by_cases hts : s.timeStamp = hi <;>
          simp [addHitToSpeciesList, hid, hts, Nat.mod_eq_of_lt hhi]
      · simp [addHitToSpeciesList, hid, ih]

/-- Crediting the species map never changes the scalar fields of the
genus entry. -/
theorem addHitToSpeciesMap_scalars (g : GenusCount) (sid hi w : Nat) :
    (addHitToSpeciesMap g sid hi w).1.id = g.id
      ∧ (addHitToSpeciesMap g sid hi w).1.count = g.count
      ∧ (addHitToSpeciesMap g sid hi w).1.weightedCount = g.weightedCount
      ∧ (addHitToSpeciesMap g sid hi w).1.timeStamp = g.timeStamp := by
  refine ⟨rfl, rfl, rfl, rfl⟩

/-! ## Claim C4 -/

/-- C4.  `addHitToSpeciesMap` returns, for the first species entry whose
id matches: the genus entry's current (post-genus-update, since the
driver credits the genus first at line 161) `weightedCount` if that entry
was not credited in round `hi` yet; 0 if its `timeStamp` already equals
`hi`; and the newly created species entry's own weight when no entry
matches. -/
theorem claim_C4 (g : GenusCount) (sid hi w : Nat) :
    (addHitToSpeciesMap g sid hi w).2 =
      match g.speciesMap.find? (fun s => decide (s.id = sid)) with
      | none => w
      | some s => if s.timeStamp = hi then 0 else g.weightedCount := by
  have h := addHitToSpeciesList_score g.weightedCount g.speciesMap sid hi w
  simpa [addHitToSpeciesMap] using h

/-! ## Claim C3 -/

/-- C3 counterexample.  The round index `hi` is a `size_t` but
`timeStamp` is a `uint32_t`: at round `hi = 2^32` the stored stamp is 0,
the dedup comparison `timeStamp != hi` stays true, and two coordinates of
the same round and genus are both credited — `count` rises to 2 and
`weightedCount` receives two weight contributions (2 x 100). -/
theorem claim_C3_cex :
    (((addHitToGenusMap (addHitToGenusMap [] 7 (2 ^ 32) 100).1 7 (2 ^ 32) 100).1).map
        (fun g => g.count) = [2])
      ∧ (((addHitToGenusMap (addHitToGenusMap [] 7 (2 ^ 32) 100).1 7 (2 ^ 32) 100).1).map
        (fun g => g.weightedCount) = [200]) := by
  constructor <;> decide

/-- C3 (amended: the round index must fit the 32-bit `timeStamp`, i.e.
`hi < 2^32`; the source's loop satisfies this for every realisable read).
Within one round `hi`: after the first credit of a genus id the genus map
absorbs every further credit of that id unchanged (so `count` rises at
most once and `weightedCount` receives at most one weight contribution);
likewise for a species id inside one genus entry; and species credits
never touch the genus entry's own counters. -/
theorem claim_C3 (mp : List GenusCount) (g : GenusCount) (gid sid hi w : Nat)
    (ws : List Nat) (hhi : hi < U32) :
    (List.foldl (fun m2 w2 => (addHitToGenusMap m2 gid hi w2).1)
        (addHitToGenusMap mp gid hi w).1 ws = (addHitToGenusMap mp gid hi w).1)
      ∧ (List.foldl (fun gc w2 => (addHitToSpeciesMap gc sid hi w2).1)
        (addHitToSpeciesMap g sid hi w).1 ws = (addHitToSpeciesMap g sid hi w).1)
      ∧ ((addHitToSpeciesMap g sid hi w).1.count = g.count
          ∧ (addHitToSpeciesMap g sid hi w).1.weightedCount = g.weightedCount) := by
  refine ⟨?_, ?_, rfl, rfl⟩
  · induction ws with
    | nil => rfl
    | cons w2 ws2 ih =>
        simpa [List.foldl_cons, addHitToGenusMap_idem gid hi hhi mp w w2]
          using ih
  · induction ws with
    | nil => rfl
    | cons w2 ws2 ih =>
        have hstep :
            (addHitToSpeciesMap (addHitToSpeciesMap g sid hi w).1 sid hi w2).1
              = (addHitToSpeciesMap g sid hi w).1 := by
          simp [addHitToSpeciesMap,
            addHitToSpeciesList_idem sid hi hhi g.speciesMap]
        simpa [List.foldl_cons, hstep] using ih

/-- C3 witness: a concrete same-round credit sequence collapsing to the
first credit. -/
theorem claim_C3_witness :
    (List.foldl (fun m2 w2 => (addHitToGenusMap m2 9 3 w2).1)
        (addHitToGenusMap [] 9 3 49).1 [49, 49]
      = (addHitToGenusMap [] 9 3 49).1)
      ∧ (List.foldl (fun gc w2 => (addHitToSpeciesMap gc 4 3 w2).1)
        (addHitToSpeciesMap emptyGenus 4 3 49).1 [49, 49]
      = (addHitToSpeciesMap emptyGenus 4 3 49).1)
      ∧ ((addHitToSpeciesMap emptyGenus 4 3 49).1.count = emptyGenus.count
          ∧ (addHitToSpeciesMap emptyGenus 4 3 49).1.weightedCount
              = emptyGenus.weightedCount) :=
  claim_C3 [] emptyGenus 9 4 3 49 [49, 49] (by decide)

/-! ## Claim C6 -/

/-- C6 counterexample.  After a step whose most recent partial hit has
length `L = 8 <= 10` (with scan offset 30 and `minHitLen = 22`), the
claim predicts the offset advances to 31; the source executes no
`setOffset` at all (the `else advance` branch sits inside
`if (lastHit.len() > increment)`), so the offset stays 30. -/
theorem claim_C6_cex : searchStepAdjust 30 8 22 10 ≠ 30 + 1 := by decide

/-- C6 (amended): if `L > 10` and `L < minHitLen` the offset retreats by
10; if `L > 10` and `L >= minHitLen` it advances by 1; if `L <= 10` it is
left unchanged — it does not advance. -/
theorem claim_C6 (cur L m : Nat) :
    (10 < L → L < m → 10 ≤ cur → searchStepAdjust cur L m 10 = cur - 10)
      ∧ (10 < L → m ≤ L → searchStepAdjust cur L m 10 = cur + 1)
      ∧ (L ≤ 10 → searchStepAdjust cur L m 10 = cur) := by
  refine ⟨fun h1 h2 _ => ?_, fun h1 h2 => ?_, fun h1 => ?_⟩
  · simp [searchStepAdjust, h1, h2]
  · simp [searchStepAdjust, h1]
    omega
  · simp [searchStepAdjust]
    omega

/-- C6 witness: the three behaviours at concrete inputs. -/
theorem claim_C6_witness :
    searchStepAdjust 30 12 22 10 = 30 - 10
      ∧ searchStepAdjust 30 25 22 10 = 30 + 1
      ∧ searchStepAdjust 30 8 22 10 = 30 :=
  ⟨(claim_C6 30 12 22).1 (by decide) (by decide) (by decide),
   (claim_C6 30 25 22).2.1 (by decide) (by decide),
   (claim_C6 30 8 22).2.2 (by decide)⟩

/-! ## Claim C7 -/

/-- The accumulating fold of `getForwardOrReverseHit` computes the sum
and the count of the qualifying hit lengths. -/
theorem totalAndNum_eq_filter (lens : List Nat) (m : Nat) :
    ∀ a b : Nat,
      lens.foldl (fun acc l => if l < m then acc else (acc.1 + l, acc.2 + 1)) (a, b)
        = (a + (lens.filter (fun l => decide (m ≤ l))).sum,
           b + (lens.filter (fun l => decide (m ≤ l))).length) := by
  induction lens with
  | nil => intro a b; simp
  | cons l ls ih =>
      intro a b
      by_cases hl : l < m
      · have hd : decide (m ≤ l) = false := by simp; omega
        simp [List.foldl_cons, List.filter_cons, hl, hd, ih a b]
      · have hd : decide (m ≤ l) = true := by simp; omega
        simp only [List.foldl_cons, List.filter_cons, hd, if_neg hl, if_true]
        rw [ih (a + l) (b + 1), List.sum_cons, List.length_cons]
        simp only [Prod.mk.injEq]
        omega

/-- C7.  The per-strand value computed by `getForwardOrReverseHit` is the
integer average of the qualifying (length at least `minHitLen`) partial
hit lengths, 0 when none qualify; the forward strand (index 0) is
selected exactly when its average is strictly greater than the reverse
strand's, and equal averages select the reverse strand (index 1). -/
theorem claim_C7 (fwLens rcLens : List Nat) (m : Nat) :
    (avgHitLength fwLens m = specAverage fwLens m)
      ∧ (getForwardOrReverseHit fwLens rcLens m = 0
          ↔ specAverage fwLens m > specAverage rcLens m)
      ∧ (specAverage fwLens m = specAverage rcLens m
          → getForwardOrReverseHit fwLens rcLens m = 1) := by
  have havg : ∀ lens : List Nat, avgHitLength lens m = specAverage lens m := by
    intro lens
    have h := totalAndNum_eq_filter lens m 0 0
    simp only [Nat.zero_add] at h
    simp only [avgHitLength, specAverage, totalAndNum, h]
    by_cases hq : (lens.filter (fun l => decide (m ≤ l))).length = 0
    · simp [hq]
    · simp [hq, Nat.pos_of_ne_zero hq]
  refine ⟨havg fwLens, ?_, ?_⟩
  · unfold getForwardOrReverseHit
    rw [havg fwLens, havg rcLens]
    by_cases hgt : specAverage fwLens m > specAverage rcLens m <;> simp [hgt]
  · intro heq
    unfold getForwardOrReverseHit
    rw [havg fwLens, havg rcLens, heq]
    simp

/-- C7 witness: equal qualifying averages select the reverse strand. -/
theorem claim_C7_witness : getForwardOrReverseHit [30] [30] 22 = 1 :=
  (claim_C7 [30] [30] 22).2.2 (by decide)

/-! ## Claim C8 -/

/-- C8 counterexample.  For a partial hit of length 65551 the `uint32_t`
cast at line 158 truncates: `(65551 - 15)^2 = 2^32` and the credited
weight is 0, not the exact square. -/
theorem claim_C8_cex : addWeight 65551 ≠ (65551 - 15) * (65551 - 15) := by decide

/-- C8 (amended: exactness additionally needs `(L - 15)^2 < 2^32`, i.e.
`L <= 65550`; beyond that the `uint32_t` cast takes the square mod
`2^32`).  For `16 <= L <= 65550` the weight credited per accepted
coordinate is exactly `(L - 15)^2`, and a partial hit shorter than
`minHitLen` is skipped outright: the driver state is unchanged and the
loop does not break. -/
theorem claim_C8 :
    (∀ L, 16 ≤ L → L ≤ 65550 → addWeight L = (L - 15) * (L - 15))
      ∧ (∀ (khits m : Nat) (shuf : List Nat → List Nat) (lastRound : Bool)
          (t : Nat) (h : BWTHit) (hi : Nat) (st : MateState), h.len < m →
          stepHit khits m shuf lastRound t h hi st = (st, false)) := by
  constructor
  · intro L h16 hle
    unfold addWeight U64 U32
    have h1 : L + (2 ^ 64 - 15) = (L - 15) + 2 ^ 64 := by omega
    rw [h1, Nat.add_mod_right]
    have h2 : L - 15 < 2 ^ 64 := by omega
    rw [Nat.mod_eq_of_lt h2]
    have h3 : (L - 15) * (L - 15) < 2 ^ 32 := by
      have hb : L - 15 ≤ 65535 := by omega
      calc (L - 15) * (L - 15) ≤ 65535 * 65535 := Nat.mul_le_mul hb hb
        _ < 2 ^ 32 := by norm_num
    rw [Nat.mod_eq_of_lt (lt_trans h3 (by norm_num)), Nat.mod_eq_of_lt h3]
  · intro khits m shuf lastRound t h hi st hlt
    simp [stepHit, hlt]

/-- C8 witness: exact weight at `L = 40` and a skipped hit of length 10
under `minHitLen = 22`. -/
theorem claim_C8_witness :
    addWeight 40 = (40 - 15) * (40 - 15)
      ∧ stepHit 5 22 (fun l => l) false 0 ⟨10, [1, 2]⟩ 0 ⟨⟨[], 0, 0, 0⟩, 0, 0⟩
          = (⟨⟨[], 0, 0, 0⟩, 0, 0⟩, false) :=
  ⟨claim_C8.1 40 (by decide) (by decide),
   claim_C8.2 5 22 (fun l => l) false 0 ⟨10, [1, 2]⟩ 0 ⟨⟨[], 0, 0, 0⟩, 0, 0⟩
     (by decide)⟩

/-! ## Claim C1 -/

/-- C1 (evaluation at the failing input).  With budget `khits = 5`,
`minHitLen = 22`, an unpaired read whose selected strand has two
qualifying partial hits with suffix-array range sizes 3 and 5: because
`getCoords` passes `maxGenomeHitSize - _genomeHits.size()` (line 398) as
the per-hit walk bound and `_genomeHits` is always empty inside `go`
(`genomeHitsSize = 0`), the second hit is resolved against the full
budget instead of the remaining `5 - 3 = 2`, and the call walks
`3 + 5 = 8 > 5` coordinates in total. -/
theorem claim_C1 :
    (classifierGo 5 22 (fun _ _ l => l)
        [⟨44, [⟨22, [1, 2, 3]⟩, ⟨22, [4, 5, 6, 7, 8]⟩]⟩]).walk = 8 ∧ 5 < 8 := by
  constructor <;> decide

/-! ## Claim C9 -/

/-- C9 (evaluation at the failing input).  With the default
`minHitLen = 22` and `khits = 1`, a single qualifying partial hit of
length 65551 with one coordinate is credited with weight
`(65551 - 15)^2 mod 2^32 = 0`: the genus map then holds an entry whose
`weightedCount` is 0 at emission time, contradicting
`assert_gt(_genusMap[gi].weightedCount, 0)` (line 194) and the claim. -/
theorem claim_C9 :
    ((classifierGo 1 22 (fun _ _ l => l)
        [⟨65551, [⟨65551, [3 * 2 ^ 32 + 5]⟩]⟩]).genusMap).map
      (fun g => g.weightedCount) = [0] := by decide

/-! ## Claim C10 -/

/-- Every report built by the emission loop carries mate index 0. -/
theorem emitResults_mate_zero :
    ∀ (mp : List GenusCount) (r : Report), r ∈ emitResults mp → r.1 = 0 := by
  intro mp
  induction mp with
  | nil => intro r hr; simp [emitResults] at hr
  | cons g gs ih =>
      intro r hr
      simp only [emitResults, List.mem_append, List.mem_map] at hr
      rcases hr with ⟨s, _, rfl⟩ | hr
      · rfl
      · exact ih r hr

/-- C10.  Every result of a classification call is reported with mate
index 0 (the literal first argument of `sink.report(0, &rs)` at line
208), for every input, paired or not. -/
theorem claim_C10 (khits m : Nat) (shuf : Nat → Nat → List Nat → List Nat)
    (mates : List MateIn) (r : Report)
    (hr : r ∈ classifierReports khits m shuf mates) : r.1 = 0 :=
  emitResults_mate_zero _ r hr

/-- C10 witness: a concrete call emitting one report, whose mate index
the theorem pins to 0. -/
theorem claim_C10_witness :
    ((0, 5, 3, 1250) : Report)
        ∈ classifierReports 5 22 (fun _ _ l => l) [⟨40, [⟨40, [5 * 2 ^ 32 + 3]⟩]⟩]
      ∧ ((0, 5, 3, 1250) : Report).1 = 0 :=
  ⟨by decide, claim_C10 5 22 (fun _ _ l => l) [⟨40, [⟨40, [5 * 2 ^ 32 + 3]⟩]⟩]
    (0, 5, 3, 1250) (by decide)⟩

/-! ## Claim C2 -/

/-- The `size_t` early-termination test agrees with the exact integer
comparison `secondBestScore + (t - u - 15)^2 < bestScore` whenever the
operands are in the machine-realistic range: `u <= t < 2^32` (both come
from `index_t` hit lengths of one read) and the score trackers are below
`2^32` (they only ever hold `uint32_t` `newScore` values).  In
particular, when the remaining length `t - u` is below 15 the unsigned
underflow squares back to `(15 - (t - u))^2 = (t - u - 15)^2`, so the
mathematical reading survives. -/
theorem earlyTermCond_iff (best second t u : Nat) (hu : u ≤ t) (ht : t < 2 ^ 32)
    (hb : best < 2 ^ 32) (hs : second < 2 ^ 32) :
    earlyTermCond best second t u = true ↔
      (second : Int) + ((t : Int) - u - 15) ^ 2 < best := by
  unfold earlyTermCond sizeSub U64
  simp only [decide_eq_true_eq]
  have hbm : best % 2 ^ 64 = best := Nat.mod_eq_of_lt (by omega)
  have hum : u % 2 ^ 64 = u := Nat.mod_eq_of_lt (by omega)
  have h15 : (15 : Nat) % 2 ^ 64 = 15 := by norm_num
  have hsub1 : (t + (2 ^ 64 - u % 2 ^ 64)) % 2 ^ 64 = t - u := by
    rw [hum]
    have he : t + (2 ^ 64 - u) = (t - u) + 2 ^ 64 := by omega
    rw [he, Nat.add_mod_right, Nat.mod_eq_of_lt (by omega)]
  rw [hsub1, h15, hbm]
  by_cases hr : 15 ≤ t - u
  · have hd : (t - u + (2 ^ 64 - 15)) % 2 ^ 64 = t - u - 15 := by
      have he : t - u + (2 ^ 64 - 15) = (t - u - 15) + 2 ^ 64 := by omega
      rw [he, Nat.add_mod_right, Nat.mod_eq_of_lt (by omega)]
    rw [hd]
    have hsqb : (t - u - 15) * (t - u - 15) ≤ (2 ^ 32 - 16) * (2 ^ 32 - 16) :=
      Nat.mul_le_mul (by omega) (by omega)
    rw [Nat.mod_eq_of_lt (by omega), Nat.mod_eq_of_lt (by omega)]
    have hcast : (t : Int) - u - 15 = ((t - u - 15 : Nat) : Int) := by omega
    rw [hcast]
    have hsq : ((t - u - 15 : Nat) : Int) ^ 2
        = (((t - u - 15) * (t - u - 15) : Nat) : Int) := by push_cast; ring
    rw [hsq]
    generalize (t - u - 15) * (t - u - 15) = A
    omega
  · have hd : (t - u + (2 ^ 64 - 15)) % 2 ^ 64 = t - u + (2 ^ 64 - 15) :=
      Nat.mod_eq_of_lt (by omega)
    rw [hd]
    have he : t - u + (2 ^ 64 - 15) = 2 ^ 64 - (15 - (t - u)) := by omega
    rw [he]
    have hkey : (2 ^ 64 - (15 - (t - u))) * (2 ^ 64 - (15 - (t - u)))
        = (15 - (t - u)) * (15 - (t - u)) + 2 ^ 64 * (2 ^ 64 - 2 * (15 - (t - u))) := by
      zify [show (15 : Nat) - (t - u) ≤ 2 ^ 64 by omega,
        show 2 * ((15 : Nat) - (t - u)) ≤ 2 ^ 64 by omega]
      ring
    rw [hkey, Nat.add_mul_mod_self_left]
    have hee : (15 - (t - u)) * (15 - (t - u)) ≤ 15 * 15 :=
      Nat.mul_le_mul (by omega) (by omega)
    rw [Nat.mod_eq_of_lt (by omega), Nat.mod_eq_of_lt (by omega)]
    have hcast : (t : Int) - u - 15 = -(((15 - (t - u) : Nat)) : Int) := by omega
    rw [hcast]
    have hsq : (-(((15 - (t - u) : Nat)) : Int)) ^ 2
        = (((15 - (t - u)) * (15 - (t - u)) : Nat) : Int) := by push_cast; ring
    rw [hsq]
    generalize (15 - (t - u)) * (15 - (t - u)) = A
    omega

/-- For a processed partial hit (qualifying length, nonempty resolved
coordinate list), the break flag of `stepHit` is exactly: budget
exhausted, or (on the last mate) the early-termination test on the
post-hit state. -/
theorem stepHit_processed_snd (khits m : Nat) (shuf : List Nat → List Nat)
    (lastRound : Bool) (t : Nat) (h : BWTHit) (hi : Nat) (st : MateState)
    (hml : ¬ h.len < m) (hne : (getGenomeIdx h khits).isEmpty = false) :
    (stepHit khits m shuf lastRound t h hi st).2 =
      (decide (khits ≤ (stepHit khits m shuf lastRound t h hi st).1.genomeHitCnt)
        || (lastRound
            && earlyTermCond (stepHit khits m shuf lastRound t h hi st).1.gs.bestScore
              (stepHit khits m shuf lastRound t h hi st).1.gs.secondBestScore t
              (stepHit khits m shuf lastRound t h hi st).1.usedPortion)) := by
  unfold stepHit
  rw [if_neg hml]
  simp only [hne, Bool.false_eq_true, if_false]
  split_ifs <;> simp_all

/-- C2.  On the final mate, after processing any partial hit `h` (its
length qualifies and its range is nonempty) that leaves the driver in
state `st2`: if `bestScore - secondBestScore` exceeds
`(t - usedPortion - 15)^2` — the exact integer square, also when the
remaining unscanned qualifying length `t - usedPortion` is below 15 —
then the loop breaks and no further partial hit of `rest` is processed:
the mate's result is `st2` for every `rest`.  The bounds `t < 2^32`,
`bestScore, secondBestScore < 2^32` hold in every real call (`index_t`
totals of one read, `uint32_t` scores). -/
theorem claim_C2 (khits m : Nat) (shuf : Nat → List Nat → List Nat) (t : Nat)
    (h : BWTHit) (rest : List BWTHit) (hi : Nat) (st st2 : MateState) (b : Bool)
    (hp : stepHit khits m (shuf hi) true t h hi st = (st2, b))
    (hm : m ≤ h.len) (hc : h.coordIds ≠ []) (hk : 0 < khits)
    (hu : st2.usedPortion ≤ t) (ht : t < 2 ^ 32)
    (hb : st2.gs.bestScore < 2 ^ 32) (hs : st2.gs.secondBestScore < 2 ^ 32)
    (hgap : (st2.gs.secondBestScore : Int)
        + ((t : Int) - st2.usedPortion - 15) ^ 2 < st2.gs.bestScore) :
    runHits khits m shuf true t (h :: rest) hi st = st2 := by
  have hml : ¬ h.len < m := not_lt.mpr hm
  have hlen : 0 < (getGenomeIdx h khits).length := by
    unfold getGenomeIdx genomeHitsSize
    rw [List.length_take]
    have hp2 : 0 < h.coordIds.length := List.length_pos.mpr hc
    omega
  have hne : (getGenomeIdx h khits).isEmpty = false := by
    cases hgl : getGenomeIdx h khits with
    | nil => rw [hgl] at hlen; simp at hlen
    | cons a l => rfl
  have hsnd := stepHit_processed_snd khits m (shuf hi) true t h hi st hml hne
  rw [hp] at hsnd
  have hcond : earlyTermCond st2.gs.bestScore st2.gs.secondBestScore t
      st2.usedPortion = true :=
    (earlyTermCond_iff _ _ _ _ hu ht hb hs).mpr hgap
  simp only [hcond, Bool.and_true, true_and, Bool.true_and, Bool.or_true] at hsnd
  simp [runHits, hp, hsnd]

/-- C2 witness: `khits = 5`, `minHitLen = 22`, final mate with total
qualifying length 40; the first hit (length 40, one coordinate) yields
`bestScore = 625`, `secondBestScore = 0`, `usedPortion = 40`, so the
remaining length is 0 (< 15) and `625 - 0 > (0 - 15)^2 = 225`: the
second hit is never processed. -/
theorem claim_C2_witness :
    runHits 5 22 (fun _ l => l) true 40 [⟨40, [2 ^ 32 + 1]⟩, ⟨40, [9]⟩] 0
        ⟨⟨[], 0, 0, 0⟩, 0, 0⟩
      = ⟨⟨[⟨1, 1, 625, 0, [⟨1, 1, 625, 0⟩]⟩], 625, 0, 1⟩, 40, 1⟩ :=
  claim_C2 5 22 (fun _ l => l) 40 ⟨40, [2 ^ 32 + 1]⟩ [⟨40, [9]⟩] 0
    ⟨⟨[], 0, 0, 0⟩, 0, 0⟩ ⟨⟨[⟨1, 1, 625, 0, [⟨1, 1, 625, 0⟩]⟩], 625, 0, 1⟩, 40, 1⟩
    true (by decide) (by decide) (by decide) (by decide) (by decide) (by decide)
    (by decide) (by decide) (by decide)

/-! ## Claim C5: uniqueness invariant of the two-level map -/

/-- The id column of the genus map after a credit: unchanged when the id
is already present, extended by the new id otherwise. -/
theorem addHitToGenusMap_ids (gid hi w : Nat) :
    ∀ mp : List GenusCount,
      ((addHitToGenusMap mp gid hi w).1).map (fun g => g.id)
        = if gid ∈ mp.map (fun g => g.id) then mp.map (fun g => g.id)
          else mp.map (fun g => g.id) ++ [gid] := by
  intro mp
  induction mp with
  | nil => simp [addHitToGenusMap]
  | cons g gs ih =>
      by_cases hid : g.id = gid
      · have hmem : gid ∈ (g :: gs).map (fun g => g.id) := by
          simp [List.mem_cons, hid.symm]
        by_cases hts : g.timeStamp = hi <;>
          simp [addHitToGenusMap, hid, hts, hmem]
      · have hid2 : ¬ gid = g.id := fun hh => hid hh.symm
        by_cases hmem : gid ∈ gs.map (fun g => g.id) <;>
          simp [addHitToGenusMap, hid, hid2, ih, hmem, List.mem_cons]

/-- The id column of a species list after a credit: unchanged when the id
is already present, extended by the new id otherwise. -/
theorem addHitToSpeciesList_ids (sid hi : Nat) :
    ∀ (l : List SpeciesCount) (gW w : Nat),
      ((addHitToSpeciesList gW l sid hi w).1).map (fun s => s.id)
        = if sid ∈ l.map (fun s => s.id) then l.map (fun s => s.id)
          else l.map (fun s => s.id) ++ [sid] := by
  intro l
  induction l with
  | nil => intro gW w; simp [addHitToSpeciesList]
  | cons s ss ih =>
      intro gW w
      by_cases hid : s.id = sid
      · have hmem : sid ∈ (s :: ss).map (fun s => s.id) := by
          simp [List.mem_cons, hid.symm]
        by_cases hts : s.timeStamp = hi <;>
          simp [addHitToSpeciesList, hid, hts, hmem]
      · have hid2 : ¬ sid = s.id := fun hh => hid hh.symm
        by_cases hmem : sid ∈ ss.map (fun s => s.id) <;>
          simp [addHitToSpeciesList, hid, hid2, ih, hmem, List.mem_cons]

/-- Every entry of the genus map after a credit carries either an empty
species map (the freshly created entry) or the species map of an entry of
the input map (credits never touch other entries' species maps). -/
theorem addHitToGenusMap_speciesMap (gid hi w : Nat) :
    ∀ (mp : List GenusCount) (g2 : GenusCount),
      g2 ∈ (addHitToGenusMap mp gid hi w).1 →
      g2.speciesMap = [] ∨ ∃ g0 ∈ mp, g2.speciesMap = g0.speciesMap := by
  intro mp
  induction mp with
  | nil =>
      intro g2 hg2
      simp [addHitToGenusMap] at hg2
      subst hg2
      left; rfl
  | cons g gs ih =>
      intro g2 hg2
      by_cases hid : g.id = gid
      · by_cases hts : g.timeStamp = hi
        · have hg2' : g2 ∈ g :: gs := by
            simpa [addHitToGenusMap, hid, hts] using hg2
          exact Or.inr ⟨g2, hg2', rfl⟩
        · simp [addHitToGenusMap, hid, hts] at hg2
          rcases hg2 with h1 | h1
          · exact Or.inr ⟨g, by simp, by simp [h1]⟩
          · exact Or.inr ⟨g2, by simp [h1], rfl⟩
      · simp [addHitToGenusMap, hid] at hg2
        rcases hg2 with h1 | h1
        · exact Or.inr ⟨g2, by simp [h1], rfl⟩
        · rcases ih g2 h1 with hnil | ⟨g0, hg0, heq⟩
          · exact Or.inl hnil
          · exact Or.inr ⟨g0, by simp [hg0], heq⟩

/-- `getD` returns a member of the list or the default. -/
theorem getD_mem_or {α : Type} (d : α) :
    ∀ (l : List α) (i : Nat), l.getD i d ∈ l ∨ l.getD i d = d := by
  intro l
  induction l with
  | nil => intro i; right; cases i <;> rfl
  | cons x xs ih =>
      intro i
      cases i with
      | zero => left; simp
      | succ n =>
          rcases ih n with hm | he
          · left; simpa using Or.inr hm
          · right; simpa using he

/-- Overwriting a list position with an element of the same `f`-image
leaves the `f`-column unchanged. -/
theorem map_set_eq {α β : Type} (f : α → β) :
    ∀ (l : List α) (i : Nat) (a d : α), f a = f (l.getD i d) →
      (l.set i a).map f = l.map f := by
  intro l
  induction l with
  | nil => intro i a d _; simp
  | cons x xs ih =>
      intro i a d hf
      cases i with
      | zero => simp at hf; simp [hf]
      | succ n =>
          simp only [List.set_cons_succ, List.map_cons]
          rw [ih n a d (by simpa using hf)]

/-- Membership after `set`: the new element or an element of the original
list. -/
theorem mem_set_or {α : Type} :
    ∀ (l : List α) (i : Nat) (a x : α), x ∈ l.set i a → x = a ∨ x ∈ l := by
  intro l
  induction l with
  | nil => intro i a x hx; simp at hx
  | cons y ys ih =>
      intro i a x hx
      cases i with
      | zero =>
          simp at hx
          rcases hx with rfl | hx
          · exact Or.inl rfl
          · exact Or.inr (by simp [hx])
      | succ n =>
          simp at hx
          rcases hx with rfl | hx
          · exact Or.inr (by simp)
          · rcases ih n a x hx with rfl | hm
            · exact Or.inl rfl
            · exact Or.inr (by simp [hm])

/-- Well-formedness of the genus map: genus ids are pairwise distinct and
every entry's species ids are pairwise distinct.  Holds for the map built
by a classification call (it starts empty and both credit operations scan
before appending). -/
def WFmap (mp : List GenusCount) : Prop :=
  (mp.map (fun g => g.id)).Nodup ∧ ∀ g ∈ mp, (g.speciesMap.map (fun s => s.id)).Nodup

/-- Crediting the species map of a genus entry preserves distinctness of
its species ids. -/
theorem addHitToSpeciesMap_nodup (g : GenusCount) (sid hi w : Nat)
    (h : (g.speciesMap.map (fun s => s.id)).Nodup) :
    (((addHitToSpeciesMap g sid hi w).1).speciesMap.map (fun s => s.id)).Nodup := by
  have he : ((addHitToSpeciesMap g sid hi w).1).speciesMap
      = (addHitToSpeciesList g.weightedCount g.speciesMap sid hi w).1 := rfl
  rw [he, addHitToSpeciesList_ids]
  by_cases hmem : sid ∈ g.speciesMap.map (fun s => s.id)
  · simpa [hmem] using h
  · simp only [hmem, if_false]
    rw [← List.concat_eq_append]
    exact List.Nodup.concat hmem h

/-- Crediting one coordinate preserves well-formedness of the genus
map. -/
theorem creditCoord_WF (gs : GoState) (pid hi w : Nat)
    (hWF : WFmap gs.genusMap) : WFmap (creditCoord gs pid hi w).genusMap := by
  obtain ⟨hnd, hsp⟩ := hWF
  have hmap : (creditCoord gs pid hi w).genusMap
      = (addHitToGenusMap gs.genusMap (pid % U32) hi w).1.set
          (addHitToGenusMap gs.genusMap (pid % U32) hi w).2
          (addHitToSpeciesMap
            ((addHitToGenusMap gs.genusMap (pid % U32) hi w).1.getD
              (addHitToGenusMap gs.genusMap (pid % U32) hi w).2 emptyGenus)
            (pid / 2 ^ 32 % U32) hi w).1 := rfl
  rw [hmap]
  have hnd1 : (((addHitToGenusMap gs.genusMap (pid % U32) hi w).1).map
      (fun g => g.id)).Nodup := by
    rw [addHitToGenusMap_ids]
    by_cases hmem : (pid % U32) ∈ gs.genusMap.map (fun g => g.id)
    · simpa [hmem] using hnd
    · simp only [hmem, if_false]
      rw [← List.concat_eq_append]
      exact List.Nodup.concat hmem hnd
  have hsp1 : ∀ g ∈ (addHitToGenusMap gs.genusMap (pid % U32) hi w).1,
      (g.speciesMap.map (fun s => s.id)).Nodup := by
    intro g hg
    rcases addHitToGenusMap_speciesMap (pid % U32) hi w gs.genusMap g hg with
      hnil | ⟨g0, hg0, heq⟩
    · simp [hnil]
    · rw [heq]; exact hsp g0 hg0
  have hbase : (((addHitToGenusMap gs.genusMap (pid % U32) hi w).1.getD
      (addHitToGenusMap gs.genusMap (pid % U32) hi w).2
      emptyGenus).speciesMap.map (fun s => s.id)).Nodup := by
    rcases getD_mem_or emptyGenus (addHitToGenusMap gs.genusMap (pid % U32) hi w).1
        (addHitToGenusMap gs.genusMap (pid % U32) hi w).2 with hm | he
    · exact hsp1 _ hm
    · rw [he]; simp [emptyGenus]
  have hspE := addHitToSpeciesMap_nodup
    ((addHitToGenusMap gs.genusMap (pid % U32) hi w).1.getD
      (addHitToGenusMap gs.genusMap (pid % U32) hi w).2 emptyGenus)
    (pid / 2 ^ 32 % U32) hi w hbase
  constructor
  · have hmse := map_set_eq (fun g => g.id)
      (addHitToGenusMap gs.genusMap (pid % U32) hi w).1
      (addHitToGenusMap gs.genusMap (pid % U32) hi w).2
      (addHitToSpeciesMap
        ((addHitToGenusMap gs.genusMap (pid % U32) hi w).1.getD
          (addHitToGenusMap gs.genusMap (pid % U32) hi w).2 emptyGenus)
        (pid / 2 ^ 32 % U32) hi w).1
      emptyGenus rfl
    rw [hmse]
    exact hnd1
  · intro g hg
    rcases mem_set_or _ _ _ _ hg with h1 | h1
    · rw [h1]; exact hspE
    · exact hsp1 _ h1

/-- Crediting a list of coordinates preserves well-formedness. -/
theorem creditLoop_WF (hi w : Nat) :
    ∀ (pids : List Nat) (gs : GoState), WFmap gs.genusMap →
      WFmap (creditLoop hi w pids gs).genusMap := by
  intro pids
  induction pids with
  | nil => intro gs h; simpa [creditLoop] using h
  | cons p ps ih =>
      intro gs h
      have h1 : creditLoop hi w (p :: ps) gs = creditLoop hi w ps (creditCoord gs p hi w) := rfl
      rw [h1]
      exact ih _ (creditCoord_WF gs p hi w h)

/-- One loop iteration preserves well-formedness. -/
theorem stepHit_WF (khits m : Nat) (shuf : List Nat → List Nat) (lastRound : Bool)
    (t : Nat) (h : BWTHit) (hi : Nat) (st : MateState)
    (hWF : WFmap st.gs.genusMap) :
    WFmap (stepHit khits m shuf lastRound t h hi st).1.gs.genusMap := by
  unfold stepHit
  by_cases h1 : h.len < m
  · simp only [if_pos h1]; exact hWF
  · rw [if_neg h1]
    dsimp only
    split_ifs <;>
      first
        | exact hWF
        | exact creditLoop_WF hi (addWeight h.len) _ _ hWF

/-- The partial-hit loop preserves well-formedness. -/
theorem runHits_WF (khits m : Nat) (shuf : Nat → List Nat → List Nat)
    (lastRound : Bool) (t : Nat) :
    ∀ (hits : List BWTHit) (hi : Nat) (st : MateState), WFmap st.gs.genusMap →
      WFmap (runHits khits m shuf lastRound t hits hi st).gs.genusMap := by
  intro hits
  induction hits with
  | nil => intro hi st h; simpa [runHits] using h
  | cons hh rest ih =>
      intro hi st h
      have hws : WFmap (stepHit khits m (shuf hi) lastRound t hh hi st).1.gs.genusMap :=
        stepHit_WF khits m (shuf hi) lastRound t hh hi st h
      simp only [runHits]
      cases hpb : (stepHit khits m (shuf hi) lastRound t hh hi st).2 with
      | true => simpa [hpb] using hws
      | false => simpa [hpb] using ih (hi + 1) _ hws

/-- The mate loop preserves well-formedness. -/
theorem runMates_WF (khits m : Nat) (shuf : Nat → Nat → List Nat → List Nat)
    (total : Nat) :
    ∀ (mates : List MateIn) (rdi : Nat) (gs : GoState), WFmap gs.genusMap →
      WFmap (runMates khits m shuf total mates rdi gs).genusMap := by
  intro mates
  induction mates with
  | nil => intro rdi gs h; simpa [runMates] using h
  | cons mt rest ih =>
      intro rdi gs h
      simp only [runMates]
      exact ih (rdi + 1) _
        (runHits_WF khits m (shuf rdi) _ mt.t mt.hits 0 ⟨gs, 0, 0⟩ h)

/-- The genus map of every classification call is well-formed: genus ids
unique, species ids unique within each genus. -/
theorem classifierGo_WF (khits m : Nat) (shuf : Nat → Nat → List Nat → List Nat)
    (mates : List MateIn) : WFmap (classifierGo khits m shuf mates).genusMap := by
  unfold classifierGo
  exact runMates_WF khits m shuf mates.length mates 0 ⟨[], 0, 0, 0⟩ (by simp [WFmap])

/-- A genus block contributes nothing to the filter when none of its
species ids matches. -/
theorem speciesBlock_filter_nil (gid gw x y : Nat) :
    ∀ l : List SpeciesCount, (∀ s2 ∈ l, ¬ s2.id = x) →
      ((l.map (fun s2 => ((0, s2.id, gid, (gw + s2.weightedCount) % U32) : Report))).filter
        (fun r => decide (r.2.1 = x) && decide (r.2.2.1 = y))) = [] := by
  intro l
  induction l with
  | nil => intro _; simp
  | cons s0 ss ih =>
      intro h
      have h0 : ¬ s0.id = x := h s0 (by simp)
      simp only [List.map_cons, List.filter_cons]
      simp [h0, ih (fun s2 hs2 => h s2 (by simp [hs2]))]

/-- A genus block contributes nothing to the filter when its genus id
does not match. -/
theorem genusBlock_filter_nil (gid gw x y : Nat) (hg : ¬ gid = y) :
    ∀ l : List SpeciesCount,
      ((l.map (fun s2 => ((0, s2.id, gid, (gw + s2.weightedCount) % U32) : Report))).filter
        (fun r => decide (r.2.1 = x) && decide (r.2.2.1 = y))) = [] := by
  intro l
  induction l with
  | nil => simp
  | cons s0 ss ih =>
      simp only [List.map_cons, List.filter_cons]
      simp [hg, ih]

/-- Within one genus block with pairwise-distinct species ids, filtering
for a member species id keeps exactly that species' report. -/
theorem speciesBlock_filter_single (gid gw : Nat) :
    ∀ (l : List SpeciesCount) (s : SpeciesCount), s ∈ l →
      (l.map (fun s2 => s2.id)).Nodup →
      ((l.map (fun s2 => ((0, s2.id, gid, (gw + s2.weightedCount) % U32) : Report))).filter
        (fun r => decide (r.2.1 = s.id) && decide (r.2.2.1 = gid)))
      = [(0, s.id, gid, (gw + s.weightedCount) % U32)] := by
  intro l
  induction l with
  | nil => intro s hs _; simp at hs
  | cons s0 ss ih =>
      intro s hs hnd
      simp only [List.map_cons, List.nodup_cons] at hnd
      rcases List.mem_cons.mp hs with rfl | hs'
      · have htail : ∀ s2 ∈ ss, ¬ s2.id = s.id := by
          intro s2 hs2 heq
          exact hnd.1 (heq ▸ List.mem_map_of_mem (fun s3 => s3.id) hs2)
        simp only [List.map_cons, List.filter_cons]
        simp [speciesBlock_filter_nil gid gw s.id gid ss htail]
      · have hne : ¬ s0.id = s.id := by
          intro heq
          exact hnd.1 (heq ▸ List.mem_map_of_mem (fun s3 => s3.id) hs')
        simp only [List.map_cons, List.filter_cons]
        simp [hne, ih s hs' hnd.2]

/-- No genus block matches when no genus id equals `y`. -/
theorem emitResults_filter_nil (x y : Nat) :
    ∀ mp : List GenusCount, (∀ g2 ∈ mp, ¬ g2.id = y) →
      (emitResults mp).filter
        (fun r => decide (r.2.1 = x) && decide (r.2.2.1 = y)) = [] := by
  intro mp
  induction mp with
  | nil => intro _; simp [emitResults]
  | cons g0 gs ih =>
      intro h
      simp only [emitResults, List.filter_append]
      rw [genusBlock_filter_nil g0.id g0.weightedCount x y (h g0 (by simp)) g0.speciesMap,
        ih (fun g2 hg2 => h g2 (by simp [hg2]))]
      rfl

/-- In a well-formed genus map, filtering the emitted reports for a
member (genus, species) id pair keeps exactly one report, carrying the
combined score. -/
theorem emitResults_filter (g : GenusCount) (s : SpeciesCount) :
    ∀ mp : List GenusCount, WFmap mp → g ∈ mp → s ∈ g.speciesMap →
      (emitResults mp).filter
        (fun r => decide (r.2.1 = s.id) && decide (r.2.2.1 = g.id))
      = [(0, s.id, g.id, (g.weightedCount + s.weightedCount) % U32)] := by
  intro mp
  induction mp with
  | nil => intro _ hg _; simp at hg
  | cons g0 gs ih =>
      intro hWF hg hs
      obtain ⟨hnd, hsp⟩ := hWF
      simp only [List.map_cons, List.nodup_cons] at hnd
      obtain ⟨hnd1, hnd2⟩ := hnd
      simp only [emitResults, List.filter_append]
      rcases List.mem_cons.mp hg with rfl | hg'
      · rw [speciesBlock_filter_single g.id g.weightedCount g.speciesMap s hs
          (hsp g (by simp))]
        have hrest : ∀ g2 ∈ gs, ¬ g2.id = g.id := by
          intro g2 hg2 heq
          exact hnd1 (heq ▸ List.mem_map_of_mem (fun g3 => g3.id) hg2)
        rw [emitResults_filter_nil s.id g.id gs hrest]
        rfl
      · have hne : ¬ g0.id = g.id := by
          intro heq
          exact hnd1 (heq ▸ List.mem_map_of_mem (fun g3 => g3.id) hg')
        rw [genusBlock_filter_nil g0.id g0.weightedCount s.id g.id hne g0.speciesMap,
          ih ⟨hnd2, fun g2 hg2 => hsp g2 (by simp [hg2])⟩ hg' hs]
        rfl

/-- C5.  After all mates are processed, for every genus entry `g` of the
final map and every species entry `s` under it, the call reports exactly
one result whose primary id is `s.id` and context id is `g.id`, and its
score is the (`uint32_t`) sum of the genus entry's and the species
entry's `weightedCount`. -/
theorem claim_C5 (khits m : Nat) (shuf : Nat → Nat → List Nat → List Nat)
    (mates : List MateIn) (g : GenusCount) (s : SpeciesCount)
    (hg : g ∈ (classifierGo khits m shuf mates).genusMap)
    (hs : s ∈ g.speciesMap) :
    (classifierReports khits m shuf mates).filter
        (fun r => decide (r.2.1 = s.id) && decide (r.2.2.1 = g.id))
      = [(0, s.id, g.id, (g.weightedCount + s.weightedCount) % U32)] :=
  emitResults_filter g s _ (classifierGo_WF khits m shuf mates) hg hs

/-- C5 witness: a concrete call whose final map holds genus 3 with
species 5 (each with `weightedCount` 625); exactly one report
`(0, 5, 3, 1250)` passes the filter. -/
theorem claim_C5_witness :
    (classifierReports 5 22 (fun _ _ l => l)
        [⟨40, [⟨40, [5 * 2 ^ 32 + 3]⟩]⟩]).filter
        (fun r => decide (r.2.1 = (5 : Nat)) && decide (r.2.2.1 = (3 : Nat)))
      = [(0, 5, 3, 1250)] := by
  have h := claim_C5 5 22 (fun _ _ l => l) [⟨40, [⟨40, [5 * 2 ^ 32 + 3]⟩]⟩]
    ⟨3, 1, 625, 0, [⟨5, 1, 625, 0⟩]⟩ ⟨5, 1, 625, 0⟩ (by decide) (by decide)
  simpa using h

end Classifier
